import Mathlib

/-!
Verification of the MNEE Fireblocks SDK core (UTXO selection, fee and
gross/net accounting, transaction output assembly, remote-signing response
matching, and DER signature canonicalization) against its natural-language
specification.  Each definition is a shallow embedding of the corresponding
TypeScript function; machine numbers are modelled as `Nat`/`Int`, buffers as
`List Nat` of byte values, and code that throws as `Except`.
-/

/-! ## Byte-sequence helpers

`Buffer` values are modelled as `List Nat` with each element a byte value.
`fromBytesBE` is the big-endian unsigned integer a buffer denotes;
`toBytesBE w x` is the `w`-byte big-endian representation of `x`
(the value of `Buffer.from(x.toString(16).padStart(2*w, '0'), 'hex')`
for `0 ≤ x < 256^w`). -/

deriving instance DecidableEq for Except

/-- Big-endian value of a byte list. -/
def fromBytesBE (l : List Nat) : Nat := l.foldl (fun a b => a * 256 + b) 0

/-- Big-endian `w`-byte representation of `x` (low byte last). -/
def toBytesBE : Nat → Nat → List Nat
  | 0, _ => []
  | w + 1, x => toBytesBE w (x / 256) ++ [x % 256]

/-! ## crypto.utils.ts -/

/-- Embedding of `toDER` (src/src/utils/crypto.utils.ts lines 13-23):
strip leading zero bytes; an all-zero buffer becomes the single byte `0`
(`Buffer.alloc(1)`); if the high bit of the remaining leading byte is set
(`buffer[0] & 0x80`, i.e. bit 7), prepend a zero byte. -/
def toDER (buffer : List Nat) : List Nat :=
  match buffer.dropWhile (fun b => b == 0) with
  | [] => [0]
  | b :: rest => if b.testBit 7 then 0 :: b :: rest else b :: rest

/-- Error cases of `encodeDER`, one per `throw` site in
src/src/utils/crypto.utils.ts lines 35-44. -/
inductive DerError where
  | rLengthZero
  | sLengthZero
  | rTooLong
  | sTooLong
  | rNegative
  | sNegative
  | rExcessPad
  | sExcessPad
deriving DecidableEq, Repr

/-- Embedding of `encodeDER` (src/src/utils/crypto.utils.ts lines 31-58).
The byte test `x & 0x80` is modelled as `x.testBit 7`.  The output is
`0x30, total-2, 0x02, lenR, r..., 0x02, lenS, s...` where
`total = 6 + lenR + lenS`. -/
def encodeDER (r s : List Nat) : Except DerError (List Nat) :=
  if r.length = 0 then .error .rLengthZero
  else if s.length = 0 then .error .sLengthZero
  else if 33 < r.length then .error .rTooLong
  else if 33 < s.length then .error .sTooLong
  else if (r.headD 0).testBit 7 then .error .rNegative
  else if (s.headD 0).testBit 7 then .error .sNegative
  else if 1 < r.length && r.headD 0 == 0 && !(r.getD 1 0).testBit 7 then
    .error .rExcessPad
  else if 1 < s.length && s.headD 0 == 0 && !(s.getD 1 0).testBit 7 then
    .error .sExcessPad
  else
    .ok (0x30 :: (4 + r.length + s.length) :: 0x02 :: r.length ::
      (r ++ 0x02 :: s.length :: s))

/-- secp256k1 curve order `n` from src/src/utils/crypto.utils.ts line 76. -/
def secpN : Nat := 0xFFFFFFFFFFFFFFFFFFFFFFFFFFFFFFFEBAAEDCE6AF48A03BBFD25E8CD0364141

/-- Half the curve order, `n / BigInt(2)` (floor division). -/
def halfN : Nat := secpN / 2

/-- Hex digit count of `n`, computed with structural fuel so the kernel can
evaluate it (`n.toString(16).length` for a nonnegative BigInt). -/
def hexLenAux : Nat → Nat → Nat
  | 0, _ => 1
  | f + 1, n => if n < 16 then 1 else hexLenAux f (n / 16) + 1

/-- Hex digit count of a natural number. -/
def hexLen (n : Nat) : Nat := hexLenAux n n

/-- Value of `Buffer.from(x.toString(16).padStart(64, '0'), 'hex')` for a
BigInt `x` with `|x| < 2^256`.  For `0 ≤ x` this is the 32-byte big-endian
representation.  For `x < 0`, `toString(16)` yields a minus sign followed by
the hex digits of `|x|`; after left-padding with `'0'` to 64 characters,
`Buffer.from(..., 'hex')` parses two characters at a time and truncates at
the first pair containing the minus sign, leaving `(64 - 1 - hexLen |x|) / 2`
zero bytes. -/
def bigIntHexBuffer (x : Int) : List Nat :=
  if 0 ≤ x then toBytesBE 32 x.toNat
  else List.replicate ((64 - 1 - hexLen x.natAbs) / 2) 0

/-- Signature object returned by the remote signer
(src/src/config/types.ts `FireblocksSignature`).  The `r` and `s` hex
strings are modelled by their unsigned big-integer values, which is how
`createDERSignature` immediately interprets them (`BigInt('0x' + r)`). -/
structure FireblocksSignature where
  r : Nat
  s : Nat
  v : Nat
  pubKey : String
deriving DecidableEq, Inhabited, Repr

/-- Embedding of `createDERSignature`
(src/src/utils/crypto.utils.ts lines 66-108): low-S normalize `s`, render
`r` and the normalized `s` as 32-byte padded hex buffers, run `toDER` on
each, DER-encode the pair, and append the one-byte sighash flag (the source
appends `sigHashType.toString(16).padStart(2, '0')` to the hex string;
`sigHashType` is a byte). -/
def createDERSignature (signature : FireblocksSignature) (sigHashType : Nat) :
    Except DerError (List Nat) :=
  let r := signature.r
  let s := signature.s
  let normalizedS : Int := if halfN < s then (secpN : Int) - s else (s : Int)
  let rBuffer := bigIntHexBuffer (r : Int)
  let sBuffer := bigIntHexBuffer normalizedS
  let processedR := toDER rBuffer
  let processedS := toDER sBuffer
  match encodeDER processedR processedS with
  | .error e => .error e
  | .ok derSig => .ok (derSig ++ [sigHashType])

/-- Position of the DER `s` integer inside a `createDERSignature` result:
byte 3 is `lenR`, the `s` bytes start at offset `6 + lenR` and run for
`lenS` (byte `5 + lenR`) bytes; `fromBytesBE` reads the value. -/
def derSValue (der : List Nat) : Nat :=
  fromBytesBE ((der.drop (6 + der.getD 3 0)).take (der.getD (5 + der.getD 3 0) 0))

/-! ## Hashing and the remote-signing response protocol
(src/src/services/fireblocks.service.ts, src/src/services/transaction.service.ts)

The SHA-256 primitive itself is owned by Node's `crypto` module and the
sighash-preimage serialization by the ledger SDK
(`TransactionSignature.format`); both are external collaborators, so the
digest is a parameter `sha256` and a preimage is an opaque byte list. -/

/-- Embedding of `doubleHash` (src/src/utils/crypto.utils.ts lines 115-117).
Despite its name and doc comment, the body applies SHA-256 exactly once:
`createHash("sha256").update(buffer).digest()`. -/
def doubleHash (sha256 : List Nat → List Nat) (buffer : List Nat) : List Nat :=
  sha256 buffer

/-- Embedding of `TransactionService.createSignatureHash`
(src/src/services/transaction.service.ts lines 284-312): one SHA-256 over
the externally formatted sighash preimage. -/
def createSignatureHash (sha256 : List Nat → List Nat) (preimage : List Nat) :
    List Nat :=
  sha256 preimage

/-- `SIGHASH_ALL | SIGHASH_ANYONECANPAY | SIGHASH_FORKID`
(src/src/services/transaction.service.ts lines 481-483). -/
def sigHashAllAnyoneCanPayForkId : Nat := 0x01 ||| 0x80 ||| 0x40

/-- One entry of `sigHashesWithIndex` (src/src/config/types.ts
`HashWithIndex` plus the `bip44AddressIndex` tag). -/
structure HashWithIndex where
  hash : List Nat
  inputIndex : Nat
  sigHashType : Nat
  bip44AddressIndex : Nat
deriving DecidableEq, Inhabited, Repr

/-- One raw message submitted to the signer
(src/src/services/fireblocks.service.ts lines 74-78).  The `content` hex
string is modelled by the byte list it encodes. -/
structure RawMessage where
  content : List Nat
  bip44addressIndex : Nat
  bip44change : Nat
deriving DecidableEq, Inhabited, Repr

/-- Message batch built by `signMultipleHashes`
(src/src/services/fireblocks.service.ts lines 59-79): each submitted
content is `doubleHash` of the per-input base hash. -/
def messagesFor (sha256 : List Nat → List Nat) (sigHashesWithIndex : List HashWithIndex) :
    List RawMessage :=
  sigHashesWithIndex.map fun h =>
    ⟨doubleHash sha256 h.hash, h.bip44AddressIndex, 0⟩

/-- One signed message of the signer's response
(`sigResponse.signedMessages` entries). -/
structure SignedMessage where
  content : List Nat
  signature : FireblocksSignature
  publicKey : String
deriving DecidableEq, Inhabited, Repr

/-- Failure cases of the response-processing part of `signMultipleHashes`:
the empty-response guard (lines 105-110) and the per-input
`Could not find matching signature for input i` throw (lines 127-131). -/
inductive SignError where
  | noSignedMessages
  | noMatch (inputIndex : Nat)
deriving DecidableEq, Repr

/-- Matching loop of `signMultipleHashes`
(src/src/services/fireblocks.service.ts lines 117-143): for each submitted
input, in order, recompute the second hash and `find` the first response
entry whose `content` equals it; throw at the first input with no match. -/
def matchSignatures (sha256 : List Nat → List Nat) :
    List HashWithIndex → List SignedMessage →
    Except SignError (List (Nat × FireblocksSignature))
  | [], _ => .ok []
  | h :: rest, signedMessages =>
    match signedMessages.find? (fun m => m.content == doubleHash sha256 h.hash) with
    | some matching =>
      match matchSignatures sha256 rest signedMessages with
      | .ok tail => .ok ((h.inputIndex, matching.signature) :: tail)
      | .error e => .error e
    | none => .error (.noMatch h.inputIndex)

/-- Response handling of `signMultipleHashes`
(src/src/services/fireblocks.service.ts lines 105-145): an empty response
throws `No signed messages returned from Fireblocks`; otherwise signatures
are matched to inputs by content equality. -/
def processResponse (sha256 : List Nat → List Nat)
    (sigHashesWithIndex : List HashWithIndex) (signedMessages : List SignedMessage) :
    Except SignError (List (Nat × FireblocksSignature)) :=
  if signedMessages.isEmpty then .error .noSignedMessages
  else matchSignatures sha256 sigHashesWithIndex signedMessages

/-! ## UTXOs and selection (src/src/services/transaction.service.ts) -/

/-- Token payload of a UTXO (src/src/config/types.ts `UTXO.data.bsv21`;
display-only fields `dec`, `icon`, `op`, `sym` are omitted). -/
structure Bsv21 where
  amt : Int
  id : String
deriving DecidableEq, Inhabited, Repr

/-- Wrapper mirroring the `data` field nesting of `UTXO`. -/
structure UtxoData where
  bsv21 : Bsv21
deriving DecidableEq, Inhabited, Repr

/-- A UTXO as served by the cosigner index (src/src/config/types.ts `UTXO`;
index metadata `height`, `idx`, `outpoint`, `score` is omitted as unused by
the embedded code). -/
structure UTXO where
  data : UtxoData
  owners : List String
  satoshis : Int
  script : String
  txid : String
  vout : Nat
deriving DecidableEq, Inhabited, Repr

/-- Token amount of a UTXO, the `utxo.data.bsv21.amt` accessor. -/
def amt (u : UTXO) : Int := u.data.bsv21.amt

/-- Stable descending insertion by token amount: insert before the first
strictly smaller element, after any equal one. -/
def insertDesc (u : UTXO) : List UTXO → List UTXO
  | [] => [u]
  | v :: rest => if amt v ≤ amt u then u :: v :: rest else v :: insertDesc u rest

/-- Embedding of `utxosCopy.sort((a, b) => b.data.bsv21.amt - a.data.bsv21.amt)`
(src/src/services/transaction.service.ts line 229).  ECMAScript
`Array.prototype.sort` is stable, so the result is the unique stable
descending-by-amount reordering; stable insertion sort computes it. -/
def sortUtxosDesc (utxos : List UTXO) : List UTXO :=
  utxos.foldr insertDesc []

/-- Index of the UTXO chosen in one iteration of the `selectUtxos` loop
(src/src/services/transaction.service.ts lines 232-256): first a perfect
match for the remaining gap (forward scan), else the smallest UTXO still
covering the gap (backward scan over the descending-sorted pool, i.e. the
last index with `amt ≥ gap`), else index `0` (the largest remaining). -/
def chooseIndex (pool : List UTXO) (gap : Int) : Nat :=
  match pool.findIdx? (fun u => amt u == gap) with
  | some i => i
  | none =>
    match pool.reverse.findIdx? (fun u => decide (gap ≤ amt u)) with
    | some j => pool.length - 1 - j
    | none => 0

/-- Selection loop of `selectUtxos`
(src/src/services/transaction.service.ts lines 231-264), with the pool
length as structural fuel: the loop removes exactly one UTXO per iteration
(`splice(selectedIndex, 1)`), so starting the fuel at the pool length makes
the recursion exhaust exactly when the pool does. -/
def selectLoop (amountNeeded : Int) :
    Nat → List UTXO → List UTXO → List String → Int →
    List UTXO × List String × Int
  | 0, _, selected, addrs, tokensIn => (selected, addrs, tokensIn)
  | fuel + 1, pool, selected, addrs, tokensIn =>
    if tokensIn < amountNeeded && !pool.isEmpty then
      let i := chooseIndex pool (amountNeeded - tokensIn)
      let utxo := pool.getD i default
      selectLoop amountNeeded fuel (pool.eraseIdx i) (selected ++ [utxo])
        (addrs ++ [utxo.owners.getD 0 ""]) (tokensIn + amt utxo)
    else (selected, addrs, tokensIn)

/-- Result record of `selectUtxos`. -/
structure SelectResult where
  selectedUtxos : List UTXO
  signingAddresses : List String
  tokensIn : Int
deriving DecidableEq, Inhabited, Repr

/-- Typed errors for every `throw` site of the transfer pipeline
(`TransactionService.selectUtxos`, `MNEEFireblocksSDK.transferTokens`,
`MNEEFireblocksSDK.transferTokensFromVault`), each carrying the amounts its
message interpolates. -/
inductive TransferError where
  | vaultAccountRequired
  | invalidAmount
  | feeRangesInadequate
  | amountTooSmall (postFee : Int)
  | insufficientTokensForFeeEmptying (available fee : Int)
  | insufficientFunds (tokensIn amountNeeded : Int)
  | sourceVaultRequired
  | noAddressesFound
  | feeRangesInadequateTotal
  | insufficientBalanceForFee (available fee : Int)
  | insufficientVaultBalance (required available : Int)
deriving DecidableEq, Repr

/-- Embedding of `TransactionService.selectUtxos`
(src/src/services/transaction.service.ts lines 212-273): copy and sort the
pool descending by token amount, run the greedy loop, and throw
`Insufficient MNEE tokens: have .., need ..` when the accumulated total
still falls short. -/
def selectUtxos (utxos : List UTXO) (amountNeeded : Int) :
    Except TransferError SelectResult :=
  let utxosCopy := sortUtxosDesc utxos
  let r := selectLoop amountNeeded utxosCopy.length utxosCopy [] [] 0
  if r.2.2 < amountNeeded then .error (.insufficientFunds r.2.2 amountNeeded)
  else .ok ⟨r.1, r.2.1, r.2.2⟩

/-! ## Token config, fees and the transfer orchestration
(src/src/MNEEFireblocksSDK.ts) -/

/-- One fee bracket of the cosigner config (src/src/config/types.ts
`MNEEConfig.fees` entries). -/
structure FeeTier where
  fee : Int
  max : Int
  min : Int
deriving DecidableEq, Inhabited, Repr

/-- Cosigner token configuration (src/src/config/types.ts `MNEEConfig`). -/
structure MNEEConfig where
  approver : String
  burnAddress : String
  decimals : Nat
  feeAddress : String
  fees : List FeeTier
  mintAddress : String
  tokenId : String
deriving DecidableEq, Inhabited, Repr

/-- Fee-tier lookup
`config.fees.find(fee => amount >= fee.min && amount <= fee.max)?.fee`
(src/src/MNEEFireblocksSDK.ts lines 200-202). -/
def findFee (fees : List FeeTier) (amount : Int) : Option Int :=
  (fees.find? (fun f => decide (f.min ≤ amount) && decide (amount ≤ f.max))).map
    (fun f => f.fee)

/-- Embedding of `TransactionService.createInscriptionData`
(src/src/services/transaction.service.ts lines 320-329): the token-transfer
inscription payload (the source JSON-stringifies and base64-encodes it;
`amt` is serialized via `toString()`). -/
structure InscriptionData where
  p : String
  op : String
  id : String
  amt : Int
deriving DecidableEq, Inhabited, Repr

/-- Builds the inscription payload for one output. -/
def createInscriptionData (tokenId : String) (amount : Int) : InscriptionData :=
  ⟨"bsv-20", "transfer", tokenId, amount⟩

/-- One transaction output as assembled by `transferTokens`
(src/src/MNEEFireblocksSDK.ts lines 296-359): a cosign locking script for
`lockAddress` (built by the external `CosignTemplate`/`applyInscription`
collaborators) carrying an inscription payload, at 1 satoshi. -/
structure TxOutput where
  lockAddress : String
  inscription : InscriptionData
  satoshis : Int
deriving DecidableEq, Inhabited, Repr

/-- External calls made by the orchestration, in order of occurrence. -/
inductive Call where
  | configFetch
  | utxoFetch
  | txFetch
deriving DecidableEq, Repr

/-- Wallet argument of `transferTokens` (src/src/config/types.ts
`WalletObject`; a missing `vaultAccountId` is modelled as `""`, matching
the falsiness check in the source). -/
structure WalletObject where
  ordAddress : String
  vaultAccountId : String
  bip44AddressIndex : Nat
deriving DecidableEq, Inhabited, Repr

/-- Everything `transferTokens` observes through its external collaborators:
the cosigner config, the UTXO set the cosigner returns for the queried
addresses, and the vault's addresses with their BIP44 indices. -/
structure TransferEnv where
  config : MNEEConfig
  utxos : List UTXO
  vaultAddresses : List (String × Nat)
deriving DecidableEq, Inhabited, Repr

/-- Intermediate quantities and outputs of a successfully built transfer
transaction (the state of `transferTokens` after output assembly,
src/src/MNEEFireblocksSDK.ts line 359). -/
structure BuildResult where
  useGross : Bool
  fee : Int
  recipientAmt : Int
  amountNeeded : Int
  selectedUtxos : List UTXO
  signingAddresses : List String
  tokensIn : Int
  changeAmt : Int
  outputs : List TxOutput
deriving DecidableEq, Inhabited, Repr

/-- Gross/net accounting step of `transferTokens`
(src/src/MNEEFireblocksSDK.ts lines 210-251): in gross mode the recipient
gets `amount - fee` and a non-positive post-fee amount throws
`Amount after fee ... is too small`; in net mode the recipient gets the
full `amount`. -/
def grossNetAmount (useGrossAmount : Bool) (amount fee : Int) :
    Except TransferError Int :=
  if useGrossAmount then
    let tokenSatAmt := amount - fee
    if tokenSatAmt ≤ 0 then .error (.amountTooSmall tokenSatAmt)
    else .ok tokenSatAmt
  else .ok amount

/-- Embedding of `MNEEFireblocksSDK.transferTokens`
(src/src/MNEEFireblocksSDK.ts lines 152-359) up to and including output
assembly, paired with the trace of external calls it makes.  The later
stages (remote signing, signature application, cosigner submission, lines
361-421) are reached only after this build succeeds and are modelled by
`messagesFor`/`processResponse`/`createDERSignature` above.  Control flow
mirrors the source: vault-id guard, config fetch when not cached, amount
validation, UTXO fetch, emptying-wallet detection with the `< 1` tolerance,
fee lookup, gross/net accounting with the too-small guard, the
emptying-wallet fee guard, UTXO selection, one prior-transaction fetch per
input, then recipient, fee, and conditional change outputs. -/
def transferTokensBuild (env : TransferEnv) (configCached : Bool)
    (recipient : String) (amount : Int) (walletObject : WalletObject)
    (grossAmountOpt : Bool) : List Call × Except TransferError BuildResult :=
  if walletObject.vaultAccountId = "" then ([], .error .vaultAccountRequired)
  else
    let trace0 := if configCached then [] else [Call.configFetch]
    if amount ≤ 0 then (trace0, .error .invalidAmount)
    else
      let senderAddress := walletObject.ordAddress
      let utxos := env.utxos
      let trace1 := trace0 ++ [Call.utxoFetch]
      let totalAvailableTokens := (utxos.map amt).sum
      let isEmptyingWallet := decide ((totalAvailableTokens - amount).natAbs < 1)
      let useGrossAmount := grossAmountOpt || isEmptyingWallet
      match findFee env.config.fees amount with
      | none => (trace1, .error .feeRangesInadequate)
      | some fee =>
        match grossNetAmount useGrossAmount amount fee with
        | .error e => (trace1, .error e)
        | .ok tokenSatAmt =>
          if isEmptyingWallet && decide (totalAvailableTokens < fee) then
            (trace1, .error (.insufficientTokensForFeeEmptying totalAvailableTokens fee))
          else
            let amountNeeded := if useGrossAmount then amount else tokenSatAmt + fee
            match selectUtxos utxos amountNeeded with
            | .error e => (trace1, .error e)
            | .ok sel =>
              let trace2 := trace1 ++ sel.selectedUtxos.map (fun _ => Call.txFetch)
              let recipientOutput : TxOutput :=
                ⟨recipient, createInscriptionData env.config.tokenId tokenSatAmt, 1⟩
              let feeOutput : TxOutput :=
                ⟨env.config.feeAddress, createInscriptionData env.config.tokenId fee, 1⟩
              let changeTokenSatAmt := sel.tokensIn - amountNeeded
              let changeOutputs : List TxOutput :=
                if 0 < changeTokenSatAmt then
                  [⟨senderAddress, createInscriptionData env.config.tokenId changeTokenSatAmt, 1⟩]
                else []
              (trace2, .ok ⟨useGrossAmount, fee, tokenSatAmt, amountNeeded,
                sel.selectedUtxos, sel.signingAddresses, sel.tokensIn,
                changeTokenSatAmt, [recipientOutput, feeOutput] ++ changeOutputs⟩)

/-- Total token balance as computed by `transferTokensFromVault`
(src/src/MNEEFireblocksSDK.ts lines 485-490): a reduce that adds
`utxo.data.bsv21.amt` only when that field is truthy (nonzero). -/
def totalAvailableVault (utxos : List UTXO) : Int :=
  utxos.foldl (fun sum u => if amt u ≠ 0 then sum + amt u else sum) 0

/-- Embedding of `MNEEFireblocksSDK.transferTokensFromVault`
(src/src/MNEEFireblocksSDK.ts lines 436-624).  `amount = none` models the
full-balance sentinel (the `amount === undefined` check); a given amount is
taken already converted to token satoshis (the source converts the decimal
argument with `tokensToSatoshis`, an external float rounding).  The source
address is the owner of the first UTXO when one exists (first element of
the insertion-ordered `Set`), else the vault's first address; its BIP44
index comes from the address map (last write wins, defaulting to 0). -/
def transferTokensFromVault (env : TransferEnv) (configCached : Bool)
    (sourceVaultAccountId recipientAddress : String) (amount : Option Int)
    (grossAmountOpt : Bool) : List Call × Except TransferError BuildResult :=
  if sourceVaultAccountId = "" then ([], .error .sourceVaultRequired)
  else
    let addressesWithIndexes := env.vaultAddresses
    if addressesWithIndexes.isEmpty then ([], .error .noAddressesFound)
    else
      let addresses := addressesWithIndexes.map (fun a => a.1)
      let trace1 := [Call.utxoFetch]
      let totalAvailableTokens := totalAvailableVault env.utxos
      let step2 : List Call × Except TransferError (Int × Bool) :=
        match amount with
        | none =>
          let trace2 := trace1 ++ (if configCached then [] else [Call.configFetch])
          match findFee env.config.fees totalAvailableTokens with
          | none => (trace2, .error .feeRangesInadequateTotal)
          | some fee =>
            if totalAvailableTokens ≤ fee then
              (trace2, .error (.insufficientBalanceForFee totalAvailableTokens fee))
            else (trace2, .ok (totalAvailableTokens, true))
        | some satoshiAmount =>
          let trace2 := trace1 ++ (if configCached then [] else [Call.configFetch])
          match findFee env.config.fees satoshiAmount with
          | none => (trace2, .error .feeRangesInadequate)
          | some fee =>
            let totalRequired :=
              if grossAmountOpt then satoshiAmount else satoshiAmount + fee
            if totalAvailableTokens < totalRequired then
              (trace2, .error (.insufficientVaultBalance totalRequired totalAvailableTokens))
            else (trace2, .ok (satoshiAmount, grossAmountOpt))
      match step2 with
      | (trace2, .error e) => (trace2, .error e)
      | (trace2, .ok (satoshiAmount, gross)) =>
        let selectedAddress :=
          match env.utxos with
          | [] => addresses.headD ""
          | u :: _ => u.owners.getD 0 ""
        let selectedBip44AddressIndex :=
          (((addressesWithIndexes.reverse.find? (fun a => a.1 == selectedAddress)).map
            (fun a => a.2)).getD 0)
        let walletObject : WalletObject :=
          ⟨selectedAddress, sourceVaultAccountId, selectedBip44AddressIndex⟩
        let inner := transferTokensBuild env true recipientAddress satoshiAmount
          walletObject gross
        (trace2 ++ inner.1, inner.2)

/-! ## Theorems -/

/-- The accumulated `tokensIn` of the selection loop always equals the sum
of the token amounts of the selected UTXOs. -/
theorem selectLoop_sum (amountNeeded : Int) :
    ∀ (fuel : Nat) (pool selected : List UTXO) (addrs : List String) (tokensIn : Int),
    (selected.map amt).sum = tokensIn →
    (((selectLoop amountNeeded fuel pool selected addrs tokensIn).1).map amt).sum =
      (selectLoop amountNeeded fuel pool selected addrs tokensIn).2.2
  | 0, _, _, _, _, h => by simpa [selectLoop] using h
  | fuel + 1, pool, selected, addrs, tokensIn, h => by
    rw [selectLoop]
    split
    · exact selectLoop_sum amountNeeded fuel _ _ _ _ (by simp [h])
    · simpa using h

/-- C1: for every UTXO list and positive `amountNeeded`, `selectUtxos`
either returns a selection whose token amounts (`data.bsv21.amt`) sum to at
least `amountNeeded` (with `tokensIn` equal to that sum, hence never
strictly below `amountNeeded`), or fails with the insufficient-funds
error. -/
theorem selectUtxos_covers_or_insufficient (utxos : List UTXO) (amountNeeded : Int)
    (hpos : 0 < amountNeeded) :
    (∀ res, selectUtxos utxos amountNeeded = .ok res →
      res.tokensIn = (res.selectedUtxos.map amt).sum ∧
      amountNeeded ≤ res.tokensIn ∧
      amountNeeded ≤ (res.selectedUtxos.map amt).sum) ∧
    (∀ e, selectUtxos utxos amountNeeded = .error e →
      ∃ tokensIn, e = .insufficientFunds tokensIn amountNeeded) := by
  have hsum := selectLoop_sum amountNeeded (sortUtxosDesc utxos).length
    (sortUtxosDesc utxos) [] [] 0 (by simp)
  constructor
  · intro res hres
    simp only [selectUtxos] at hres
    split at hres
    · exact absurd hres (by simp)
    · rename_i hge
      cases hres
      exact ⟨hsum.symm, not_lt.mp hge, le_of_le_of_eq (not_lt.mp hge) hsum.symm⟩
  · intro e he
    simp only [selectUtxos] at he
    split at he
    · cases he
      exact ⟨_, rfl⟩
    · exact absurd he (by simp)

/-- UTXO with 700 tokens used in the selection scenario. -/
def utxo700 : UTXO := ⟨⟨⟨700, "tok"⟩⟩, ["addrA"], 1, "scrA", "txA", 0⟩

/-- UTXO with 200 tokens used in the selection scenario. -/
def utxo200 : UTXO := ⟨⟨⟨200, "tok"⟩⟩, ["addrB"], 1, "scrB", "txB", 1⟩

/-- UTXO with 150 tokens used in the selection scenario. -/
def utxo150 : UTXO := ⟨⟨⟨150, "tok"⟩⟩, ["addrC"], 1, "scrC", "txC", 0⟩

/-- Concrete selection result used by the C1 witness. -/
def resC1 : SelectResult := (selectUtxos [utxo700] 500).toOption.getD default

/-- Witness for C1 at the concrete pool `[utxo700]` and target `500`. -/
theorem selectUtxos_covers_witness :
    (0 : Int) < 500 ∧ selectUtxos [utxo700] 500 = .ok resC1 ∧
      (resC1.tokensIn = (resC1.selectedUtxos.map amt).sum ∧
        (500 : Int) ≤ resC1.tokensIn ∧
        (500 : Int) ≤ (resC1.selectedUtxos.map amt).sum) :=
  ⟨by decide, by decide,
    (selectUtxos_covers_or_insufficient [utxo700] 500 (by decide)).1 resC1 (by decide)⟩

/-- Token config used by the concrete selection scenario: a single fee tier
charging 50 over `[0, 10000]`. -/
def envC7 : TransferEnv :=
  ⟨⟨"appr", "burn", 5, "feeAddr", [⟨50, 10000, 0⟩], "mint", "tokC7"⟩,
    [utxo700, utxo200, utxo150], [("addrA", 0)]⟩

/-- Wallet used by the concrete selection scenario. -/
def walletC7 : WalletObject := ⟨"addrA", "vault1", 0⟩

/-- Build result of the concrete selection scenario (net transfer of 800
with fee 50, so the input-coverage target is 850). -/
def bC7 : BuildResult :=
  ((transferTokensBuild envC7 true "recip" 800 walletC7 false).2).toOption.getD default

/-- C7: on UTXOs with token amounts `[700, 200, 150]` and target `850`,
`selectUtxos` picks the 700-UTXO first (no single UTXO covers 850) and then
the exact 150 match, in that order, returning `tokensIn = 850`; the
transaction built from this selection (target 850 via a net transfer of 800
plus fee 50) has zero change and no change output. -/
theorem selectUtxos_scenario_700_200_150 :
    selectUtxos [utxo700, utxo200, utxo150] 850 =
      .ok ⟨[utxo700, utxo150], ["addrA", "addrC"], 850⟩ ∧
    (transferTokensBuild envC7 true "recip" 800 walletC7 false).2 = .ok bC7 ∧
    bC7.tokensIn = 850 ∧ bC7.amountNeeded = 850 ∧ bC7.changeAmt = 0 ∧
    bC7.outputs.length = 2 := by decide

/-- Minimal content of one entry of `sigRequests` as far as hashing is
concerned (src/src/config/types.ts `SignatureRequest`): the input's
externally formatted sighash preimage stands for the transaction fields the
ledger SDK serializes; `sigHashType` is fixed to
`SIGHASH_ALL | ANYONECANPAY | FORKID` by `prepareSignatureRequests`. -/
structure SigRequestModel where
  preimage : List Nat
  inputIndex : Nat
  bip44AddressIndex : Nat
deriving DecidableEq, Inhabited, Repr

/-- Hash-preparation step of `TransactionService.getSignatures`
(src/src/services/transaction.service.ts lines 352-369): each request's
base hash is `createSignatureHash` over its sighash preimage. -/
def hashesWithIndices (sha256 : List Nat → List Nat)
    (sigRequests : List SigRequestModel) : List HashWithIndex :=
  sigRequests.map fun rq =>
    ⟨createSignatureHash sha256 rq.preimage, rq.inputIndex,
      sigHashAllAnyoneCanPayForkId, rq.bip44AddressIndex⟩

/-- C3: the content submitted to the remote signer for every input is the
digest applied a second time to the base hash: `createSignatureHash`
computes one SHA-256 over the preimage and `signMultipleHashes` applies
exactly one further SHA-256 (via `doubleHash`) both when building the
submitted batch and when computing the matching key, so every submitted
content equals `SHA-256(SHA-256(preimage))`. -/
theorem signMultipleHashes_content_double_sha
    (sha256 : List Nat → List Nat) (sigRequests : List SigRequestModel) :
    (messagesFor sha256 (hashesWithIndices sha256 sigRequests)).map
        (fun m => m.content) =
      sigRequests.map (fun rq => sha256 (sha256 rq.preimage)) ∧
    (hashesWithIndices sha256 sigRequests).map
        (fun h => doubleHash sha256 h.hash) =
      sigRequests.map (fun rq => sha256 (sha256 rq.preimage)) := by
  constructor <;>
    simp [messagesFor, hashesWithIndices, doubleHash, createSignatureHash,
      List.map_map, Function.comp]

/-- Signature A used in the response-matching counterexample. -/
def sigA : FireblocksSignature := ⟨1, 1, 0, "pkA"⟩

/-- Signature B used in the response-matching counterexample. -/
def sigB : FireblocksSignature := ⟨2, 2, 0, "pkB"⟩

/-- A single submitted input whose second hash (under the digest
`fun b => b`) is `[1]`. -/
def inputC4 : List HashWithIndex := [⟨[1], 0, 193, 0⟩]

/-- Signer response with two entries sharing the content `[1]`. -/
def respC4 : List SignedMessage := [⟨[1], sigA, "pkA"⟩, ⟨[1], sigB, "pkB"⟩]

/-- The same response with the two entries swapped. -/
def respC4x : List SignedMessage := [⟨[1], sigB, "pkB"⟩, ⟨[1], sigA, "pkA"⟩]

/-- C4 counterexample: the response list `respC4` and its permutation
`respC4x` both contain two distinct signatures under the same content
string; the matching loop (`Array.prototype.find`) takes the first match,
so permuting the response changes which signature input 0 receives —
refuting the claim that any permutation of the response list yields the
same per-input assignment. -/
theorem signMultipleHashes_match_order_cex :
    respC4.Perm respC4x ∧
    processResponse (fun b => b) inputC4 respC4 = .ok [(0, sigA)] ∧
    processResponse (fun b => b) inputC4 respC4x = .ok [(0, sigB)] ∧
    sigA ≠ sigB := by decide

/-- When the response's contents are pairwise distinct, `find?` for a fixed
content key is invariant under permutation of the response. -/
theorem find?_content_eq_of_perm_of_nodup (key : List Nat)
    {l1 l2 : List SignedMessage} (hperm : l1.Perm l2)
    (hnodup : (l1.map (fun m => m.content)).Nodup) :
    l1.find? (fun m => m.content == key) = l2.find? (fun m => m.content == key) := by
  cases h1 : l1.find? (fun m => m.content == key) with
  | none =>
    cases h2 : l2.find? (fun m => m.content == key) with
    | none => rfl
    | some b =>
      have hb := List.find?_some h2
      have hmem := hperm.mem_iff.mpr (List.mem_of_find?_eq_some h2)
      exact absurd hb (List.find?_eq_none.mp h1 b hmem)
  | some a =>
    have ha := List.find?_some h1
    have hmema := List.mem_of_find?_eq_some h1
    cases h2 : l2.find? (fun m => m.content == key) with
    | none =>
      exact absurd ha (List.find?_eq_none.mp h2 a (hperm.mem_iff.mp hmema))
    | some b =>
      have hb := List.find?_some h2
      have hmemb := hperm.mem_iff.mpr (List.mem_of_find?_eq_some h2)
      have hfa : a.content = key := by simpa using ha
      have hfb : b.content = key := by simpa using hb
      rw [List.inj_on_of_nodup_map hnodup hmema hmemb (hfa.trans hfb.symm)]

/-- The matching loop is invariant under permutations of a response whose
content strings are pairwise distinct. -/
theorem matchSignatures_perm (sha256 : List Nat → List Nat)
    (inputs : List HashWithIndex) {resp resp' : List SignedMessage}
    (hperm : resp.Perm resp')
    (hnodup : (resp.map (fun m => m.content)).Nodup) :
    matchSignatures sha256 inputs resp = matchSignatures sha256 inputs resp' := by
  induction inputs with
  | nil => rfl
  | cons h rest ih =>
    rw [matchSignatures, matchSignatures,
      find?_content_eq_of_perm_of_nodup (doubleHash sha256 h.hash) hperm hnodup, ih]

/-- If some submitted input has no response entry with a matching content,
the matching loop fails with the could-not-find error for the first such
input. -/
theorem matchSignatures_unmatched (sha256 : List Nat → List Nat)
    (inputs : List HashWithIndex) (resp : List SignedMessage)
    (hex : ∃ h ∈ inputs, ∀ m ∈ resp, m.content ≠ doubleHash sha256 h.hash) :
    ∃ i, matchSignatures sha256 inputs resp = .error (.noMatch i) := by
  induction inputs with
  | nil => simp at hex
  | cons h rest ih =>
    rw [matchSignatures]
    cases hf : resp.find? (fun m => m.content == doubleHash sha256 h.hash) with
    | none => exact ⟨h.inputIndex, rfl⟩
    | some m =>
      obtain ⟨h0, hmem, hall⟩ := hex
      rcases List.mem_cons.mp hmem with heq | hmem0
      · have hne := hall m (List.mem_of_find?_eq_some hf)
        have hfm := List.find?_some hf
        rw [heq] at hne
        exact absurd (by simpa using hfm) hne
      · obtain ⟨i, hi⟩ := ih ⟨h0, hmem0, hall⟩
        exact ⟨i, by rw [hi]⟩

/-- C4 (amended): each returned signed message is matched to its input by
equality of its second-hash content, not by position — provided the
response's content strings are pairwise distinct, any permutation of the
response yields the same per-input assignment (with duplicate contents the
`find`-first rule makes the assignment order-sensitive, see the
counterexample); and whenever the response is nonempty but some submitted
input has no entry with matching content, `signMultipleHashes` throws the
could-not-find-matching-signature error (an empty response triggers the
no-signed-messages error instead). -/
theorem signMultipleHashes_match_by_content :
    (∀ (sha256 : List Nat → List Nat) (inputs : List HashWithIndex)
      (resp resp' : List SignedMessage), resp.Perm resp' →
      (resp.map (fun m => m.content)).Nodup →
      processResponse sha256 inputs resp = processResponse sha256 inputs resp') ∧
    (∀ (sha256 : List Nat → List Nat) (inputs : List HashWithIndex)
      (resp : List SignedMessage), resp ≠ [] →
      (∃ h ∈ inputs, ∀ m ∈ resp, m.content ≠ doubleHash sha256 h.hash) →
      ∃ i, processResponse sha256 inputs resp = .error (.noMatch i)) := by
  constructor
  · intro sha256 inputs resp resp' hperm hnodup
    unfold processResponse
    have hlen := hperm.length_eq
    cases resp with
    | nil => cases resp' with
      | nil => rfl
      | cons b l => simp at hlen
    | cons a l => cases resp' with
      | nil => simp at hlen
      | cons b l' =>
        simp only [List.isEmpty_cons, if_neg]
        exact matchSignatures_perm sha256 inputs hperm hnodup
  · intro sha256 inputs resp hne hex
    unfold processResponse
    rw [if_neg (by simpa [List.isEmpty_iff] using hne)]
    exact matchSignatures_unmatched sha256 inputs resp hex

/-- Response with two distinct contents, used by the C4 witness. -/
def respC4d : List SignedMessage := [⟨[1], sigA, "pkA"⟩, ⟨[2], sigB, "pkB"⟩]

/-- Permutation of `respC4d`. -/
def respC4d2 : List SignedMessage := [⟨[2], sigB, "pkB"⟩, ⟨[1], sigA, "pkA"⟩]

/-- A submitted input whose second hash `[3]` matches nothing in
`respC4d`. -/
def inputC4u : List HashWithIndex := [⟨[3], 7, 193, 0⟩]

/-- Witness for the amended C4 at concrete inputs: permutation invariance
on a duplicate-free response, and the could-not-find error for an
unmatched input. -/
theorem signMultipleHashes_match_witness :
    processResponse (fun b => b) inputC4 respC4d =
      processResponse (fun b => b) inputC4 respC4d2 ∧
    (∃ i, processResponse (fun b => b) inputC4u respC4d = .error (.noMatch i)) :=
  ⟨signMultipleHashes_match_by_content.1 (fun b => b) inputC4 respC4d respC4d2
      (by decide) (by decide),
    signMultipleHashes_match_by_content.2 (fun b => b) inputC4u respC4d
      (by decide) (by decide)⟩

/-- Inversion of the gross/net accounting step on success. -/
theorem grossNetAmount_ok {useGrossAmount : Bool} {amount fee tokenSatAmt : Int}
    (h : grossNetAmount useGrossAmount amount fee = .ok tokenSatAmt) :
    (useGrossAmount = true → tokenSatAmt = amount - fee ∧ 0 < tokenSatAmt) ∧
    (useGrossAmount = false → tokenSatAmt = amount) := by
  unfold grossNetAmount at h
  constructor
  · intro hg
    rw [hg] at h
    simp only [if_true] at h
    split at h
    · simp at h
    · rename_i hle
      cases h
      exact ⟨rfl, by omega⟩
  · intro hg
    rw [hg] at h
    simp only [Bool.false_eq_true, if_false] at h
    cases h
    rfl

/-- Shape of every successfully built transfer: the fields of the build
result are exactly the quantities computed along the success path of
`transferTokens`, and the outputs are the recipient and fee outputs plus a
change output exactly when the change is positive. -/
theorem transferTokensBuild_ok_shape
    (env : TransferEnv) (configCached : Bool) (recipient : String) (amount : Int)
    (walletObject : WalletObject) (grossAmountOpt : Bool) (b : BuildResult)
    (h : (transferTokensBuild env configCached recipient amount walletObject
      grossAmountOpt).2 = .ok b) :
    ∃ sel, selectUtxos env.utxos b.amountNeeded = .ok sel ∧
      b.tokensIn = sel.tokensIn ∧
      grossNetAmount b.useGross amount b.fee = .ok b.recipientAmt ∧
      b.amountNeeded = (if b.useGross then amount else b.recipientAmt + b.fee) ∧
      b.changeAmt = b.tokensIn - b.amountNeeded ∧
      b.outputs =
        [⟨recipient, createInscriptionData env.config.tokenId b.recipientAmt, 1⟩,
         ⟨env.config.feeAddress, createInscriptionData env.config.tokenId b.fee, 1⟩] ++
        (if 0 < b.changeAmt then
          [⟨walletObject.ordAddress,
            createInscriptionData env.config.tokenId b.changeAmt, 1⟩]
         else []) := by
  simp only [transferTokensBuild] at h
  split at h
  · simp at h
  split at h
  · simp at h
  split at h
  · simp at h
  rename_i fee hfee
  split at h
  · simp at h
  rename_i tokenSatAmt hgn
  split at h
  · simp at h
  split at h
  · simp at h
  rename_i sel hsel
  simp only [Except.ok.injEq] at h
  subst h
  exact ⟨sel, hsel, rfl, hgn, rfl, rfl, rfl⟩

/-- C5: for every transfer that builds successfully with requested amount
`A` and resolved fee `F`: gross mode gives the recipient output `A - F`
tokens with input-coverage target `A`; net mode gives the recipient `A`
tokens with input-coverage target `A + F`; in both modes the first output
carries the recipient amount. -/
theorem transferTokens_gross_net_amounts
    (env : TransferEnv) (configCached : Bool) (recipient : String) (amount : Int)
    (walletObject : WalletObject) (grossAmountOpt : Bool) (b : BuildResult)
    (h : (transferTokensBuild env configCached recipient amount walletObject
      grossAmountOpt).2 = .ok b) :
    (b.useGross = true → b.recipientAmt = amount - b.fee ∧ b.amountNeeded = amount) ∧
    (b.useGross = false → b.recipientAmt = amount ∧ b.amountNeeded = amount + b.fee) ∧
    (b.outputs.getD 0 default).inscription.amt = b.recipientAmt := by
  obtain ⟨sel, hsel, htok, hgn, hneed, hch, hout⟩ :=
    transferTokensBuild_ok_shape env configCached recipient amount walletObject
      grossAmountOpt b h
  have hh := grossNetAmount_ok hgn
  refine ⟨?_, ?_, ?_⟩
  · intro hg
    exact ⟨(hh.1 hg).1, by rw [hneed, hg, if_pos rfl]⟩
  · intro hg
    have hr := hh.2 hg
    refine ⟨hr, ?_⟩
    rw [hneed, hg]
    simp only [Bool.false_eq_true, if_false]
    omega
  · rw [hout]
    rfl

/-- C6: every built transaction conserves tokens —
`tokensIn = recipientAmt + fee + changeAmt` where
`changeAmt = tokensIn - amountNeeded` — and carries a change output (as a
third output whose inscription amount is exactly `tokensIn - amountNeeded`)
precisely when that difference is positive; otherwise only the recipient
and fee outputs exist. -/
theorem transferTokens_change_conservation
    (env : TransferEnv) (configCached : Bool) (recipient : String) (amount : Int)
    (walletObject : WalletObject) (grossAmountOpt : Bool) (b : BuildResult)
    (h : (transferTokensBuild env configCached recipient amount walletObject
      grossAmountOpt).2 = .ok b) :
    b.tokensIn = b.recipientAmt + b.fee + b.changeAmt ∧
    b.changeAmt = b.tokensIn - b.amountNeeded ∧
    (0 < b.tokensIn - b.amountNeeded →
      b.outputs.length = 3 ∧
      (b.outputs.getD 2 default).inscription.amt = b.tokensIn - b.amountNeeded) ∧
    (¬ 0 < b.tokensIn - b.amountNeeded → b.outputs.length = 2) := by
  obtain ⟨sel, hsel, htok, hgn, hneed, hch, hout⟩ :=
    transferTokensBuild_ok_shape env configCached recipient amount walletObject
      grossAmountOpt b h
  have hh := grossNetAmount_ok hgn
  have hkey : b.amountNeeded = b.recipientAmt + b.fee := by
    cases hbg : b.useGross with
    | false =>
      rw [hneed, hbg]
      simp only [Bool.false_eq_true, if_false]
    | true =>
      rw [hneed, hbg, if_pos rfl]
      have := (hh.1 hbg).1
      omega
  refine ⟨by omega, hch, ?_, ?_⟩
  · intro hpos
    rw [hout, if_pos (by omega)]
    refine ⟨rfl, ?_⟩
    rw [hch]
    rfl
  · intro hnpos
    rw [hout, if_neg (by omega)]
    rfl

/-- UTXO with 100 tokens used by the transfer witnesses. -/
def utxoW : UTXO := ⟨⟨⟨100, "tok"⟩⟩, ["addrW"], 1, "scrW", "txW", 0⟩

/-- Environment used by the transfer witnesses: one fee tier charging 10
over `[0, 1000000]` and a single 100-token UTXO. -/
def envC56 : TransferEnv :=
  ⟨⟨"ap", "bu", 5, "feeA", [⟨10, 1000000, 0⟩], "mi", "tk"⟩, [utxoW], [("addrW", 0)]⟩

/-- Wallet used by the transfer witnesses. -/
def walletW : WalletObject := ⟨"addrW", "vaultW", 0⟩

/-- Build result of a concrete net transfer of 50 (fee 10, coverage 60,
selected 100, change 40). -/
def bC56 : BuildResult :=
  ((transferTokensBuild envC56 true "recip" 50 walletW false).2).toOption.getD default

/-- Witness for C5 at a concrete net transfer. -/
theorem transferTokens_gross_net_witness :
    (transferTokensBuild envC56 true "recip" 50 walletW false).2 = .ok bC56 ∧
    ((bC56.useGross = true → bC56.recipientAmt = 50 - bC56.fee ∧
        bC56.amountNeeded = 50) ∧
      (bC56.useGross = false → bC56.recipientAmt = 50 ∧
        bC56.amountNeeded = 50 + bC56.fee) ∧
      (bC56.outputs.getD 0 default).inscription.amt = bC56.recipientAmt) :=
  ⟨by decide, transferTokens_gross_net_amounts envC56 true "recip" 50 walletW false
    bC56 (by decide)⟩

/-- Witness for C6 at the same concrete net transfer (change 40 > 0, so a
third output carrying 40 exists). -/
theorem transferTokens_change_conservation_witness :
    (transferTokensBuild envC56 true "recip" 50 walletW false).2 = .ok bC56 ∧
    (bC56.tokensIn = bC56.recipientAmt + bC56.fee + bC56.changeAmt ∧
      bC56.changeAmt = bC56.tokensIn - bC56.amountNeeded ∧
      (0 < bC56.tokensIn - bC56.amountNeeded →
        bC56.outputs.length = 3 ∧
        (bC56.outputs.getD 2 default).inscription.amt =
          bC56.tokensIn - bC56.amountNeeded) ∧
      (¬ 0 < bC56.tokensIn - bC56.amountNeeded → bC56.outputs.length = 2)) :=
  ⟨by decide, transferTokens_change_conservation envC56 true "recip" 50 walletW
    false bC56 (by decide)⟩

/-- C9 (amended): a transfer request with a non-positive amount (and a
present vault account id) fails with the amount-validation error before the
UTXO fetch, prior-transaction fetches, and the later signing and submission
stages; the only external call that can precede the validation is one
cosigner config fetch, made exactly when the config is not already
cached. -/
theorem transferTokens_validation_fail_fast
    (env : TransferEnv) (configCached : Bool) (recipient : String) (amount : Int)
    (walletObject : WalletObject) (grossAmountOpt : Bool)
    (hamt : amount ≤ 0) (hvault : walletObject.vaultAccountId ≠ "") :
    transferTokensBuild env configCached recipient amount walletObject
      grossAmountOpt =
      ((if configCached then [] else [Call.configFetch]), .error .invalidAmount) := by
  simp only [transferTokensBuild, if_neg hvault, if_pos hamt]

/-- Environment used by the C9 counterexample and witness. -/
def envC9 : TransferEnv := ⟨⟨"a", "b", 5, "f", [], "m", "t"⟩, [], []⟩

/-- C9 counterexample: with the token config not yet cached and amount `0`,
`transferTokens` does make an external call — the cosigner config fetch —
before raising the amount-validation error, refuting the claim that no
external call precedes it. -/
theorem transferTokens_validation_cex :
    transferTokensBuild envC9 false "r" 0 ⟨"addr", "vault", 0⟩ false =
      ([Call.configFetch], .error .invalidAmount) ∧
    [Call.configFetch] ≠ ([] : List Call) := by decide

/-- Witness for the amended C9 with the config already cached: the
validation error is raised with no external call at all. -/
theorem transferTokens_validation_witness :
    (0 : Int) ≤ 0 ∧ ("vault" : String) ≠ "" ∧
    transferTokensBuild envC9 true "r" 0 ⟨"addr", "vault", 0⟩ false =
      ([], .error .invalidAmount) := by
  refine ⟨le_refl 0, by decide, ?_⟩
  have h := transferTokens_validation_fail_fast envC9 true "r" 0
    ⟨"addr", "vault", 0⟩ false (le_refl 0) (by decide)
  simpa using h

/-- C8: a full-balance vault withdrawal (amount left unspecified) whose
total available tokens are less than or equal to the resolved fee fails
with the insufficient-balance-to-cover-fee error — not with success or any
other error kind. -/
theorem fullBalance_insufficient_for_fee
    (env : TransferEnv) (configCached : Bool)
    (sourceVaultAccountId recipientAddress : String) (grossAmountOpt : Bool)
    (fee : Int)
    (hvid : sourceVaultAccountId ≠ "")
    (haddr : env.vaultAddresses ≠ [])
    (hfee : findFee env.config.fees (totalAvailableVault env.utxos) = some fee)
    (hle : totalAvailableVault env.utxos ≤ fee) :
    (transferTokensFromVault env configCached sourceVaultAccountId
      recipientAddress none grossAmountOpt).2 =
      .error (.insufficientBalanceForFee (totalAvailableVault env.utxos) fee) := by
  have hne : env.vaultAddresses.isEmpty = false := by
    cases henv : env.vaultAddresses with
    | nil => exact absurd henv haddr
    | cons a l => rfl
  simp only [transferTokensFromVault, if_neg hvid, hne, Bool.false_eq_true,
    if_false, hfee]
  rw [if_pos hle]

/-- UTXO with 5 tokens used by the C8 witness. -/
def utxoC8 : UTXO := ⟨⟨⟨5, "tok"⟩⟩, ["addrZ"], 1, "scrZ", "txZ", 0⟩

/-- Environment of the C8 witness: total balance 5, fee tier `[0, 100]`
charging 10. -/
def envC8 : TransferEnv :=
  ⟨⟨"ap", "bu", 5, "feeA", [⟨10, 100, 0⟩], "mi", "tk"⟩, [utxoC8], [("addrZ", 0)]⟩

/-- Witness for C8: a full-balance withdrawal of 5 tokens against a fee of
10 fails with the insufficient-balance-to-cover-fee error. -/
theorem fullBalance_insufficient_for_fee_witness :
    ("vaultZ" : String) ≠ "" ∧ envC8.vaultAddresses ≠ [] ∧
    findFee envC8.config.fees (totalAvailableVault envC8.utxos) = some 10 ∧
    totalAvailableVault envC8.utxos ≤ 10 ∧
    (transferTokensFromVault envC8 false "vaultZ" "recip" none false).2 =
      .error (.insufficientBalanceForFee (totalAvailableVault envC8.utxos) 10) :=
  ⟨by decide, by decide, by decide, by decide,
    fullBalance_insufficient_for_fee envC8 false "vaultZ" "recip" false 10
      (by decide) (by decide) (by decide) (by decide)⟩

/-- Prepending a zero byte does not change the value a buffer denotes. -/
theorem fromBytesBE_cons_zero (l : List Nat) : fromBytesBE (0 :: l) = fromBytesBE l := rfl

/-- Reading back a `w`-byte big-endian rendering recovers the value modulo
`256 ^ w`. -/
theorem fromBytesBE_toBytesBE : ∀ (w x : Nat), fromBytesBE (toBytesBE w x) = x % 256 ^ w
  | 0, x => by simp [toBytesBE, fromBytesBE, Nat.mod_one]
  | w + 1, x => by
    rw [toBytesBE]
    show List.foldl (fun a b => a * 256 + b) 0 (toBytesBE w (x / 256) ++ [x % 256]) = _
    rw [List.foldl_append]
    show fromBytesBE (toBytesBE w (x / 256)) * 256 + x % 256 = x % 256 ^ (w + 1)
    rw [fromBytesBE_toBytesBE w (x / 256), pow_succ, mul_comm (256 ^ w) 256,
      Nat.mod_mul]
    set y := x / 256 % 256 ^ w
    omega

/-- Stripping leading zero bytes preserves the denoted value. -/
theorem fromBytesBE_dropWhile_zero :
    ∀ (l : List Nat), fromBytesBE (l.dropWhile (fun b => b == 0)) = fromBytesBE l
  | [] => rfl
  | b :: l => by
    rw [List.dropWhile_cons]
    by_cases hb : b = 0
    · subst hb
      simp only [beq_self_eq_true, if_true]
      rw [fromBytesBE_dropWhile_zero l, fromBytesBE_cons_zero]
    · simp [hb]

/-- `toDER` preserves the unsigned big-endian value of its argument. -/
theorem fromBytesBE_toDER (l : List Nat) : fromBytesBE (toDER l) = fromBytesBE l := by
  have h := fromBytesBE_dropWhile_zero l
  unfold toDER
  cases hd : l.dropWhile (fun b => b == 0) with
  | nil =>
    rw [hd] at h
    exact h
  | cons b rest =>
    rw [hd] at h
    show fromBytesBE (if b.testBit 7 = true then 0 :: b :: rest else b :: rest) =
      fromBytesBE l
    by_cases hbit : b.testBit 7 = true
    · rw [if_pos hbit, fromBytesBE_cons_zero]
      exact h
    · rw [if_neg hbit]
      exact h

/-- The big-endian rendering has exactly the requested width. -/
theorem length_toBytesBE : ∀ (w x : Nat), (toBytesBE w x).length = w
  | 0, _ => rfl
  | w + 1, x => by
    rw [toBytesBE]
    simp [length_toBytesBE w]

/-- The head of a `dropWhile` result fails the predicate. -/
theorem dropWhile_head_false {p : Nat → Bool} :
    ∀ {l : List Nat} {b : Nat} {rest : List Nat},
      l.dropWhile p = b :: rest → p b = false
  | [], b, rest, h => by simp [List.dropWhile] at h
  | a :: l, b, rest, h => by
    rw [List.dropWhile_cons] at h
    split at h
    · exact dropWhile_head_false h
    · rename_i hpa
      cases h
      exact Bool.eq_false_iff.mpr hpa

/-- Equation for `toDER` on an all-zero buffer. -/
theorem toDER_eq_of_dropWhile_nil {l : List Nat}
    (hd : l.dropWhile (fun x => x == 0) = []) : toDER l = [0] := by
  unfold toDER
  rw [hd]

/-- Equation for `toDER` when stripping leaves a nonempty buffer. -/
theorem toDER_eq_of_dropWhile_cons {l : List Nat} {b : Nat} {rest : List Nat}
    (hd : l.dropWhile (fun x => x == 0) = b :: rest) :
    toDER l = if b.testBit 7 = true then 0 :: b :: rest else b :: rest := by
  unfold toDER
  rw [hd]

/-- For any input of at most 32 bytes, the `toDER` output passes all four
component checks of `encodeDER`: nonempty, at most 33 bytes, clear high bit
on the leading byte, and no unnecessary leading-zero pad. -/
theorem toDER_checks (l : List Nat) (hlen : l.length ≤ 32) :
    (toDER l).length ≠ 0 ∧ ¬ 33 < (toDER l).length ∧
    ((toDER l).headD 0).testBit 7 = false ∧
    (decide (1 < (toDER l).length) && ((toDER l).headD 0 == 0) &&
      !((toDER l).getD 1 0).testBit 7) = false := by
  have hsub : (l.dropWhile (fun b => b == 0)).length ≤ 32 :=
    le_trans (List.dropWhile_sublist _).length_le hlen
  cases hd : l.dropWhile (fun b => b == 0) with
  | nil =>
    rw [toDER_eq_of_dropWhile_nil hd]
    refine ⟨by simp, by simp, by simp [Nat.zero_testBit], by simp⟩
  | cons b rest =>
    rw [hd] at hsub
    simp only [List.length_cons] at hsub
    have hb0 : b ≠ 0 := by simpa using dropWhile_head_false hd
    rw [toDER_eq_of_dropWhile_cons hd]
    by_cases hbit : b.testBit 7 = true
    · rw [if_pos hbit]
      refine ⟨by simp, ?_, by simp [Nat.zero_testBit], ?_⟩
      · simp only [List.length_cons]
        omega
      · simp [hbit]
    · rw [if_neg hbit]
      refine ⟨by simp, ?_, ?_, ?_⟩
      · simp only [List.length_cons]
        omega
      · simpa using Bool.eq_false_iff.mpr hbit
      · simp [hb0]

/-- When both components pass the four checks, `encodeDER` succeeds with
the explicit SEQUENCE layout. -/
theorem encodeDER_ok_of_checks {r s : List Nat}
    (hr1 : r.length ≠ 0) (hr2 : ¬ 33 < r.length)
    (hr3 : (r.headD 0).testBit 7 = false)
    (hr4 : (decide (1 < r.length) && (r.headD 0 == 0) &&
      !(r.getD 1 0).testBit 7) = false)
    (hs1 : s.length ≠ 0) (hs2 : ¬ 33 < s.length)
    (hs3 : (s.headD 0).testBit 7 = false)
    (hs4 : (decide (1 < s.length) && (s.headD 0 == 0) &&
      !(s.getD 1 0).testBit 7) = false) :
    encodeDER r s = .ok (0x30 :: (4 + r.length + s.length) :: 0x02 :: r.length ::
      (r ++ 0x02 :: s.length :: s)) := by
  unfold encodeDER
  rw [if_neg hr1, if_neg hs1, if_neg hr2, if_neg hs2,
    if_neg (by rw [hr3]; simp), if_neg (by rw [hs3]; simp),
    if_neg (by rw [hr4]; simp), if_neg (by rw [hs4]; simp)]

/-- Both hex buffers fed to `toDER` are at most 32 bytes. -/
theorem bigIntHexBuffer_length_le (x : Int) : (bigIntHexBuffer x).length ≤ 32 := by
  unfold bigIntHexBuffer
  split
  · rw [length_toBytesBE]
  · rw [List.length_replicate]
    have h1 : 64 - 1 - hexLen x.natAbs ≤ 63 := by omega
    have h2 := Nat.div_le_div_right (c := 2) h1
    omega

set_option maxRecDepth 4000 in
/-- With both components below `2^256`, the whole pipeline reaches
`encodeDER` with valid components and succeeds. -/
theorem createDERSignature_ok (sig : FireblocksSignature) (sigHashType : Nat)
    (hr : sig.r < 2 ^ 256) (hs : sig.s < 2 ^ 256) :
    ∃ der, createDERSignature sig sigHashType = .ok der := by
  simp only [createDERSignature]
  obtain ⟨c1r, c2r, c3r, c4r⟩ :=
    toDER_checks (bigIntHexBuffer (sig.r : Int)) (bigIntHexBuffer_length_le _)
  obtain ⟨c1s, c2s, c3s, c4s⟩ :=
    toDER_checks (bigIntHexBuffer (if halfN < sig.s then (secpN : Int) - sig.s
      else (sig.s : Int))) (bigIntHexBuffer_length_le _)
  rw [encodeDER_ok_of_checks c1r c2r c3r c4r c1s c2s c3s c4s]
  exact ⟨_, rfl⟩

set_option maxRecDepth 4000 in
/-- C10: for every signature whose `r` and `s` hex strings have at most 64
digits (values below `2^256`) and every sighash byte, `createDERSignature`
never throws — after `toDER` normalizes each component, all four of
`encodeDER`'s error branches are unreachable — and a zero component is
encoded as the single zero byte `02 01 00` rather than rejected. -/
theorem createDERSignature_total :
    (∀ (r s v : Nat) (pubKey : String) (sigHashType : Nat),
      r < 2 ^ 256 → s < 2 ^ 256 →
      (createDERSignature ⟨r, s, v, pubKey⟩ sigHashType).isOk = true) ∧
    createDERSignature ⟨0, 0, 0, ""⟩ 0x41 =
      .ok [0x30, 6, 0x02, 1, 0, 0x02, 1, 0, 0x41] := by
  constructor
  · intro r s v pubKey sigHashType hr hs
    obtain ⟨der, hder⟩ := createDERSignature_ok ⟨r, s, v, pubKey⟩ sigHashType hr hs
    rw [hder]
    rfl
  · decide

/-- Inversion of a successful `encodeDER` run: the output layout. -/
theorem encodeDER_ok_shape {r s d : List Nat} (h : encodeDER r s = .ok d) :
    d = 0x30 :: (4 + r.length + s.length) :: 0x02 :: r.length ::
      (r ++ 0x02 :: s.length :: s) := by
  unfold encodeDER at h
  split at h
  · simp at h
  split at h
  · simp at h
  split at h
  · simp at h
  split at h
  · simp at h
  split at h
  · simp at h
  split at h
  · simp at h
  split at h
  · simp at h
  split at h
  · simp at h
  simp only [Except.ok.injEq] at h
  exact h.symm

/-- Reading the `s` component back out of the encoded signature yields the
value of the `s` byte buffer. -/
theorem derSValue_encode (pr ps : List Nat) (t : Nat) :
    derSValue ((0x30 :: (4 + pr.length + ps.length) :: 0x02 :: pr.length ::
      (pr ++ 0x02 :: ps.length :: ps)) ++ [t]) = fromBytesBE ps := by
  unfold derSValue
  have hlist : (0x30 :: (4 + pr.length + ps.length) :: 0x02 :: pr.length ::
      (pr ++ 0x02 :: ps.length :: ps)) ++ [t] =
      0x30 :: (4 + pr.length + ps.length) :: 0x02 :: pr.length ::
      (pr ++ 0x02 :: ps.length :: (ps ++ [t])) := by
    simp
  rw [hlist]
  have hgetD3 : ∀ (x0 x1 x2 x3 : Nat) (rest : List Nat),
      (x0 :: x1 :: x2 :: x3 :: rest).getD 3 0 = x3 := fun _ _ _ _ _ => rfl
  have hgetD4 : ∀ (x0 x1 x2 x3 : Nat) (rest : List Nat) (n : Nat),
      (x0 :: x1 :: x2 :: x3 :: rest).getD (n + 4) 0 = rest.getD n 0 :=
    fun _ _ _ _ _ _ => rfl
  have hgetD1 : ∀ (x0 x1 : Nat) (rest : List Nat),
      (x0 :: x1 :: rest).getD 1 0 = x1 := fun _ _ _ => rfl
  have hdrop4 : ∀ (x0 x1 x2 x3 : Nat) (rest : List Nat) (n : Nat),
      (x0 :: x1 :: x2 :: x3 :: rest).drop (n + 4) = rest.drop n :=
    fun _ _ _ _ _ _ => rfl
  have hdrop2 : ∀ (x0 x1 : Nat) (rest : List Nat),
      (x0 :: x1 :: rest).drop 2 = rest := fun _ _ _ => rfl
  rw [hgetD3,
    show 5 + pr.length = (pr.length + 1) + 4 by omega, hgetD4,
    List.getD_append_right _ _ _ _ (by omega),
    show pr.length + 1 - pr.length = 1 by omega, hgetD1,
    show 6 + pr.length = (pr.length + 2) + 4 by omega, hdrop4,
    List.drop_append, hdrop2, List.take_left]

set_option maxRecDepth 4000 in
/-- C2: for every signature with `s` below the curve order and every
sighash byte, the `s` component of the DER signature produced by
`createDERSignature` equals `n - s` when `s` exceeds `n/2` and `s`
otherwise, and in both cases satisfies the low-S bound `s ≤ n/2`. -/
theorem createDERSignature_low_s (sig : FireblocksSignature) (sigHashType : Nat)
    (der : List Nat) (hs : sig.s < secpN)
    (hok : createDERSignature sig sigHashType = .ok der) :
    derSValue der = (if halfN < sig.s then secpN - sig.s else sig.s) ∧
    derSValue der ≤ halfN := by
  have hodd : secpN = 2 * halfN + 1 := by decide
  have h256 : (256 : Nat) ^ 32 = 2 ^ 256 := by norm_num
  have hsecp : secpN < 2 ^ 256 := by decide
  simp only [createDERSignature] at hok
  split at hok
  · simp at hok
  rename_i derSig henc
  simp only [Except.ok.injEq] at hok
  subst hok
  rw [encodeDER_ok_shape henc, derSValue_encode, fromBytesBE_toDER]
  by_cases hcmp : halfN < sig.s
  · rw [if_pos hcmp, if_pos hcmp]
    unfold bigIntHexBuffer
    rw [if_pos (show (0 : Int) ≤ (secpN : Int) - sig.s by omega),
      fromBytesBE_toBytesBE,
      show ((secpN : Int) - sig.s).toNat = secpN - sig.s by omega,
      Nat.mod_eq_of_lt (by rw [h256]; omega)]
    exact ⟨rfl, by omega⟩
  · rw [if_neg hcmp, if_neg hcmp]
    unfold bigIntHexBuffer
    rw [if_pos (Int.natCast_nonneg sig.s),
      fromBytesBE_toBytesBE,
      show ((sig.s : Int)).toNat = sig.s by omega,
      Nat.mod_eq_of_lt (by rw [h256]; omega)]
    exact ⟨rfl, by omega⟩

/-- Signature used by the C2 witness: `s = n - 1` is above `n/2`. -/
def sigC2 : FireblocksSignature := ⟨1, secpN - 1, 0, "pk"⟩

/-- The DER signature the C2 witness produces. -/
def derC2 : List Nat := (createDERSignature sigC2 65).toOption.getD []

/-- Witness for C2: at `s = n - 1` the encoded `s` is `n - s = 1 ≤ n/2`. -/
theorem createDERSignature_low_s_witness :
    sigC2.s < secpN ∧ createDERSignature sigC2 65 = .ok derC2 ∧
    (derSValue derC2 = (if halfN < sigC2.s then secpN - sigC2.s else sigC2.s) ∧
      derSValue derC2 ≤ halfN) :=
  ⟨by decide, by decide,
    createDERSignature_low_s sigC2 65 derC2 (by decide) (by decide)⟩

/-- Signature with both components at the 64-hex-digit maximum, used by the
C10 witness. -/
def sigC10 : FireblocksSignature := ⟨2 ^ 256 - 1, 2 ^ 256 - 1, 0, "pk"⟩

/-- Witness for C10 at the extreme 256-bit components. -/
theorem createDERSignature_total_witness :
    sigC10.r < 2 ^ 256 ∧ sigC10.s < 2 ^ 256 ∧
    (createDERSignature sigC10 65).isOk = true :=
  ⟨by decide, by decide,
    createDERSignature_total.1 (2 ^ 256 - 1) (2 ^ 256 - 1) 0 "pk" 65
      (by decide) (by decide)⟩
